import Mathlib

/-!
# Verification of the CrossDown markup core (`src/CrossDown/Core.py`)

Shallow embedding of the algorithmic parts of the CrossDown markup
dialect: the dialogue-line classifier and renderer, the outline
(`Syllabus`) block processor, the inline-pattern `ID` rule, the
inline-code resolver, and the superfences `dialogue` formatter.
-/

namespace CrossDown

/-- Functional model of an `xml.etree.ElementTree.Element`: a tag, an
ordered attribute list, a text payload and an ordered child list.
Python's unset (`None`) text is modelled as the empty string. -/
structure Element where
  tag : String
  attrs : List (String × String)
  text : String
  children : List Element

/-- Dialogue direction: `左` (left), `中` (center), `右` (right). -/
inductive Direction where
  | left
  | center
  | right
deriving DecidableEq, Repr

/-- Dialogue line kind: `普通` (normal) or `心理` (inner thought). -/
inductive Kind where
  | normal
  | thought
deriving DecidableEq, Repr

/-- One classified dialogue turn. -/
structure Turn where
  direction : Direction
  speaker : String
  utterance : String
  kind : Kind
deriving DecidableEq, Repr

/-- The separator character class `[<>]` of the dialogue regex. -/
def isSep (c : Char) : Bool := c = '<' || c = '>'

/-- Operational embedding of Python `re.match` with the pattern
`(.+?)([<>]+)(.+)` from `DialogueParser.lines`, searching for the
boundary of the lazy first group: the lazy group grows one character at
a time; at each boundary the greedy separator run is taken, backing off
one character (matched by the final `(.+)` instead) when the run
reaches the end of the line. -/
def sepSearch (g1 : List Char) : List Char → Option (List Char × List Char × List Char)
  | [] => none
  | c :: rs =>
    if isSep c then
      let run := (c :: rs).takeWhile isSep
      let rest := (c :: rs).dropWhile isSep
      if rest.isEmpty then
        if 2 ≤ run.length then some (g1, run.dropLast, run.drop (run.length - 1))
        else sepSearch (g1 ++ [c]) rs
      else some (g1, run, rest)
    else sepSearch (g1 ++ [c]) rs

/-- `re.compile(r'(.+?)([<>]+)(.+)').match(line).groups()`: the lazy
first group needs at least one character. -/
def matchDialogueRe : List Char → Option (List Char × List Char × List Char)
  | [] => none
  | c :: rs => sepSearch [c] rs

/-- `DialogueParser.lines`: the empty line is skipped; an unmatched
line is narration (`中`, empty speaker); a matched line is dispatched
on its separator group, any separator other than the four recognised
forms being silently dropped. -/
def classifyLine (line : List Char) : Option Turn :=
  if line.isEmpty then none
  else
    match matchDialogueRe line with
    | none => some ⟨Direction.center, "", String.mk line, Kind.normal⟩
    | some (g1, sep, g3) =>
      if sep = ['>'] then some ⟨Direction.left, String.mk g1, String.mk g3, Kind.normal⟩
      else if sep = ['<'] then some ⟨Direction.right, String.mk g1, String.mk g3, Kind.normal⟩
      else if sep = ['>', '>'] then some ⟨Direction.left, String.mk g1, String.mk g3, Kind.thought⟩
      else if sep = ['<', '<'] then some ⟨Direction.right, String.mk g1, String.mk g3, Kind.thought⟩
      else none

/-- Modelled from the spec: the same separator search for the spec's
regex `(.+?)(\<+|\>+)(.+)`, whose separator group is a run of one
single repeated direction character (the alternation `\<+|\>+` can
never capture a mixed run).  Written only to compare the spec's stated
regex with the one the code uses. -/
def sepSearchSpec (g1 : List Char) : List Char → Option (List Char × List Char × List Char)
  | [] => none
  | c :: rs =>
    if isSep c then
      let run := (c :: rs).takeWhile (· = c)
      let rest := (c :: rs).dropWhile (· = c)
      if rest.isEmpty then
        if 2 ≤ run.length then some (g1, run.dropLast, run.drop (run.length - 1))
        else sepSearchSpec (g1 ++ [c]) rs
      else some (g1, run, rest)
    else sepSearchSpec (g1 ++ [c]) rs

/-- Modelled from the spec: `re.match` with the spec's regex
`(.+?)(\<+|\>+)(.+)`. -/
def matchDialogueReSpec : List Char → Option (List Char × List Char × List Char)
  | [] => none
  | c :: rs => sepSearchSpec [c] rs

/-- Modelled from the spec: the classifier of §4.3 as literally
written, i.e. `classifyLine` but over the spec's regex. -/
def classifyLineSpec (line : List Char) : Option Turn :=
  if line.isEmpty then none
  else
    match matchDialogueReSpec line with
    | none => some ⟨Direction.center, "", String.mk line, Kind.normal⟩
    | some (g1, sep, g3) =>
      if sep = ['>'] then some ⟨Direction.left, String.mk g1, String.mk g3, Kind.normal⟩
      else if sep = ['<'] then some ⟨Direction.right, String.mk g1, String.mk g3, Kind.normal⟩
      else if sep = ['>', '>'] then some ⟨Direction.left, String.mk g1, String.mk g3, Kind.thought⟩
      else if sep = ['<', '<'] then some ⟨Direction.right, String.mk g1, String.mk g3, Kind.thought⟩
      else none

/-- Python `str.split` with a one-character separator: `''.split(c)`
is `[''];` every occurrence of the separator starts a new piece. -/
def pySplit (sep : Char) : List Char → List (List Char)
  | [] => [[]]
  | c :: rest =>
    if c = sep then [] :: pySplit sep rest
    else
      match pySplit sep rest with
      | s :: ss => (c :: s) :: ss
      | [] => [[c]]

/-- The per-line loop of `DialogueParser.__call__`:
`self.block.text.split('\n')` classified line by line. -/
def parseDialogue (body : String) : List Turn :=
  (pySplit '\n' body.data).filterMap classifyLine

/-- `DialogueParser.line`: the `dialog-row` element with its three
cells (left name, message content, right name), as mutated in place by
the Python code.  An unset Python `text` is the empty string here; the
f-string `f'user-name {...}'` leaves a trailing space when the
direction marker is absent, which the embedding keeps. -/
def dialogueRow (t : Turn) : Element :=
  { tag := "div", attrs := [("class", "dialog-row")], text := "",
    children :=
      [{ tag := "div",
         attrs := [("class", "user-name " ++ (if t.direction = Direction.left then "left" else ""))],
         text := if t.direction = Direction.left then t.speaker else "",
         children := [] },
       { tag := "div", attrs := [("class", "message-content")],
         text := if t.kind = Kind.normal then t.utterance else "",
         children :=
           if t.kind = Kind.normal then []
           else [{ tag := "p", attrs := [("class", "thought")], text := t.utterance, children := [] }] },
       { tag := "div",
         attrs := [("class", "user-name " ++ (if t.direction = Direction.right then "right" else ""))],
         text := if t.direction = Direction.right then t.speaker else "",
         children := [] }] }

/-- The empty title element created by `DialogueParser.__init__` and
classed by `__call__`; its text is never set. -/
def dialogueTitle : Element :=
  { tag := "div", attrs := [("class", "message-title")], text := "", children := [] }

/-- The `dialog-container` box holding one `dialogueRow` per turn, in
source order. -/
def dialogueBox (ts : List Turn) : Element :=
  { tag := "div", attrs := [("class", "dialog-container")], text := "", children := ts.map dialogueRow }

/-- The `<br>` appended after the box by `DialogueParser.__call__`. -/
def brEl : Element := { tag := "br", attrs := [], text := "", children := [] }

/-- `DialogueBlock.on_end` on a block `div` whose text is the raw
fence body: run `DialogueParser` (appending title, box and `br` to the
block) and then clear the block's own text. -/
def dialogueOnEnd (body : String) : Element :=
  { tag := "div", attrs := [], text := "",
    children := [dialogueTitle, dialogueBox (parseDialogue body), brEl] }

/-- The superfences custom-fence formatter registered for the
`dialogue` fence in `Extensions`: `dialogue_formatter` wraps the raw
source in a `canvas` plus `script` pair and nothing else. -/
def dialogue_formatter (source language css_class : String) : String :=
  "<canvas></canvas><script>" ++ source ++ "</script>"

/-- Whether `needle` occurs as a contiguous substring of `hay`. -/
def listContains (needle hay : List Char) : Bool :=
  hay.tails.any fun t => needle.isPrefixOf t

/-- The value stored by `ID.__init__` in `self.value`: Python
`None | str | int`. -/
abbrev IDValue := Option (String ⊕ Int)

/-- An `ID` rule: tag, attribute name, and the `value` override. -/
structure IDRule where
  tag : String
  property_ : String
  value : IDValue

/-- The element built by `ID.handleMatch`: its text and its single
attribute, whose stored value is either a string or the raw integer
the rule was configured with. -/
structure IDElem where
  tag : String
  text : String
  attrName : String
  attrValue : String ⊕ Int
deriving DecidableEq, Repr

/-- `ID.handleMatch` on the list of captured groups (`groups[i]` is
Python's `m.group(i+1)`): text is group 1, and the attribute is
`m.group(2) if self.value is None else self.value` — the configured
value is stored as-is, an integer included. -/
def ID_handleMatch (r : IDRule) (groups : List String) : IDElem :=
  { tag := r.tag, text := groups.getD 0 "",
    attrName := r.property_,
    attrValue :=
      match r.value with
      | none => Sum.inl (groups.getD 1 "")
      | some v => v }

/-- The result of one `InlineCode.__call__` invocation: either the
delegation to the host's default `highlight_code` formatter (when a
language was given), or a raw HTML string. -/
inductive InlineResult where
  | delegated (source language cssClass : String)
  | html (s : String)
deriving DecidableEq, Repr

/-- `re.compile(r'([#-])?(.*)').match(source).groups()`: an optional
leading `#`/`-` sigil and the remainder, `.` stopping at a newline. -/
def inlineCodeSplit (source : List Char) : Option Char × List Char :=
  match source with
  | c :: rest =>
    if c = '#' || c = '-' then (some c, rest.takeWhile fun d => d ≠ '\n')
    else (none, source.takeWhile fun d => d ≠ '\n')
  | [] => (none, [])

/-- `InlineCode.__call__` with the variable mapping the instance
closed over (a Python `dict` modelled as a lookup function): a
non-empty language delegates to the host; otherwise the sigil selects
the anchor span, the inline link, or the variable lookup with literal
passthrough. -/
def InlineCode_call (varMap : String → Option String)
    (source language cssClass : String) : InlineResult :=
  if language ≠ "" then InlineResult.delegated source language cssClass
  else
    match inlineCodeSplit source.data with
    | (some '#', archer) =>
      InlineResult.html
        ("<span id=\"" ++ String.mk archer ++ "\">" ++ String.mk archer ++ "</span>")
    | (some '-', inline_link) =>
      InlineResult.html
        ("<a href=#" ++ String.mk inline_link ++ ">" ++ String.mk inline_link ++ "</a>")
    | (_, v) =>
      match varMap (String.mk v) with
      | some value => InlineResult.html ("<code id=\"block\">" ++ value ++ "</code>")
      | none => InlineResult.html ("<code id=\"block\">" ++ String.mk v ++ "</code>")

/-- The whitespace class of Python's `\s`, restricted to ASCII (the
whole development models text as ASCII-plus-literal-Unicode; Python's
Unicode-aware `\d`/`\s` classes coincide with the ASCII ones on every
input considered here). -/
def isPySpace (c : Char) : Bool :=
  c = ' ' || c = '\t' || c = '\n' || c = '\r' || c = '\x0b' || c = '\x0c'

/-- The `(\.\d+)*` tail of the `Syllabus.syllabus_re` regex
`(\d+(\.\d+)*)\s+(.*)`, with explicit recursion fuel (each step
consumes at least two characters, so `l.length` fuel always
suffices): greedily consume dot-plus-digit-run groups, returning the
consumed characters and the remainder.  The character classes of the
regex are pairwise disjoint, so the greedy parse needs no
backtracking. -/
def dottedTailF : Nat → List Char → List Char × List Char
  | 0, l => ([], l)
  | _ + 1, [] => ([], [])
  | fuel + 1, c :: rest =>
    if c = '.' ∧ rest.takeWhile Char.isDigit ≠ [] then
      let ds := rest.takeWhile Char.isDigit
      let r := dottedTailF fuel (rest.dropWhile Char.isDigit)
      ('.' :: (ds ++ r.1), r.2)
    else ([], c :: rest)

/-- `dottedTailF` with enough fuel. -/
def dottedTail (l : List Char) : List Char × List Char := dottedTailF l.length l

/-- `re.match(Syllabus.syllabus_re, block)` reduced to its two used
groups: `(id, title)` with `id` the dotted numeral of group 1 and
`title` group 3 — the text after the (possibly newline-spanning)
whitespace run, up to the next newline, possibly empty. -/
def syllabusMatch (block : String) : Option (String × String) :=
  let l := block.data
  let ds := l.takeWhile Char.isDigit
  if ds.isEmpty then none
  else
    let t := dottedTail (l.dropWhile Char.isDigit)
    if (t.2.takeWhile isPySpace).isEmpty then none
    else
      some (String.mk (ds ++ t.1),
        String.mk ((t.2.dropWhile isPySpace).takeWhile fun c => c ≠ '\n'))

/-- `Syllabus.test`: truthiness of the `re.match` result. -/
def syllabusTest (block : String) : Bool :=
  (syllabusMatch block).isSome

/-- The heading element built by `Syllabus.run`: tag
`h{len(group(1).split('.'))}`, attribute `id = group(1)`, text
`group(1) + ' ' + group(3)`. -/
def syllabusHeader (id title : String) : Element :=
  { tag := "h" ++ toString (pySplit '.' id.data).length,
    attrs := [("id", id)], text := id ++ " " ++ title, children := [] }

/-- `Syllabus.run` on the first block of the remaining-blocks list:
append the heading to the parent, replace `blocks[0]` by the empty
string, and return `False` (the host reads any value other than
`False` as "block consumed").  `run` is only invoked by the host after
`test` succeeded; a non-matching block is returned untouched here. -/
def syllabusRun (parent : Element) (blocks : List String) : Element × List String × Bool :=
  match syllabusMatch (blocks.headD "") with
  | none => (parent, blocks, false)
  | some (id, title) =>
    ({ parent with children := parent.children ++ [syllabusHeader id title] },
     blocks.set 0 "", false)

/-- The declarative grammar of the regex fragment `\d+(\.\d+)*`: a
non-empty list of non-empty digit runs joined by single dots. -/
inductive Dotted : List Char → Prop where
  | single (ds : List Char) (hne : ds ≠ []) (hd : ∀ c ∈ ds, Char.isDigit c = true) : Dotted ds
  | cons (ds : List Char) (hne : ds ≠ []) (hd : ∀ c ∈ ds, Char.isDigit c = true)
      (rest : List Char) (h : Dotted rest) : Dotted (ds ++ '.' :: rest)

/-- The grammar of the regex fragment `(\.\d+)*`: a list of groups,
each a dot followed by a non-empty digit run. -/
inductive DotGroups : List Char → Prop where
  | nil : DotGroups []
  | cons (ds : List Char) (hne : ds ≠ []) (hd : ∀ c ∈ ds, Char.isDigit c = true)
      (rest : List Char) (h : DotGroups rest) : DotGroups ('.' :: ds ++ rest)

/-- Modelled from the spec: the `test` contract of §4.2, "true iff the
block's *first line* matches `^(\d+(\.\d+)*)\s+(.+)`" — the first line
only, and a *non-empty* title group `(.+)` (with the host regex
engine's backtracking: when the greedy whitespace run leaves nothing,
it gives one non-newline whitespace character back to the title). -/
def specFirstLineTest (block : String) : Bool :=
  let line := block.data.takeWhile fun c => c ≠ '\n'
  let ds := line.takeWhile Char.isDigit
  if ds.isEmpty then false
  else
    let t := dottedTail (line.dropWhile Char.isDigit)
    let sp := t.2.takeWhile isPySpace
    if sp.isEmpty then false
    else decide (t.2.dropWhile isPySpace ≠ [] ∨ 2 ≤ sp.length)

/-- One block-level processor as the host parser sees it: a name (for
the dispatch trace), the `test` predicate and the `run` action. -/
structure Proc where
  name : String
  test : String → Bool
  run : Element → List String → Element × List String × Bool

/-- The inner processor loop of the host block parser
(`markdown.blockparser.BlockParser.parseBlocks`) on the current block:
each processor in priority order is `test`ed against `blocks[0]`; on
success its `run` executes, and only a return value other than `False`
breaks the loop.  The trace records each `(processor, tested block)`
pair. -/
def dispatchBlock : List Proc → Element → List String → List (String × String) →
    Element × List String × List (String × String)
  | [], parent, blocks, trace => (parent, blocks, trace)
  | p :: ps, parent, blocks, trace =>
    match blocks with
    | [] => (parent, blocks, trace)
    | b :: _ =>
      if p.test b then
        let res := p.run parent blocks
        if res.2.2 then (res.1, res.2.1, trace ++ [(p.name, b)])
        else dispatchBlock ps res.1 res.2.1 (trace ++ [(p.name, b)])
      else dispatchBlock ps parent blocks (trace ++ [(p.name, b)])

/-- The `Syllabus` processor as registered with the host. -/
def syllabusProc : Proc := ⟨"syllabus", syllabusTest, syllabusRun⟩

/-- The tree half of the host's `EmptyBlockProcessor.run`: when the
parent's last child is a `pre` element whose first child is a `code`
element, the removed blank filler is appended to that code text;
otherwise the tree is untouched. -/
def emptyRunTree (parent : Element) (filler : String) : Element :=
  match parent.children.getLast? with
  | none => parent
  | some sib =>
    if sib.tag = "pre" ∧ sib.children.isEmpty = false ∧
        (sib.children.headD ⟨"", [], "", []⟩).tag = "code" then
      { parent with children := parent.children.dropLast ++
          [{ sib with children :=
              match sib.children with
              | c0 :: cs => { c0 with text := c0.text ++ filler } :: cs
              | [] => [] }] }
    else parent

/-- The host's default `EmptyBlockProcessor` (an external
collaborator, modelled from its documented behaviour; registered as
`'empty'` at priority 100, the highest-priority default, so it is the
first default processor offered a block): its `test` accepts a block
that is empty or starts with a newline; its `run` pops the block,
keeps everything after a leading newline for the next round, and only
touches the tree through `emptyRunTree`.  It returns `None`, which the
dispatch loop reads as "consumed". -/
def emptyBlockProc : Proc :=
  ⟨"empty",
   fun b => b.data.isEmpty || b.data.head? == some '\n',
   fun parent blocks =>
     let b := blocks.headD ""
     let rest := blocks.tail
     let filler := if b.data.isEmpty then "\n\n" else "\n"
     let blocks2 :=
       if b.data.isEmpty then rest
       else if b.data.tail.isEmpty then rest
       else String.mk b.data.tail :: rest
     (emptyRunTree parent filler, blocks2, true)⟩

/-! ## Helper lemmas -/

theorem takeWhile_append_all (p : Char → Bool) (xs ys : List Char) (h : ∀ c ∈ xs, p c = true) :
    (xs ++ ys).takeWhile p = xs ++ ys.takeWhile p := by
  induction xs with
  | nil => simp
  | cons c xs ih =>
    have hc := h c (by simp)
    simp [List.takeWhile_cons, hc, ih fun d hd => h d (by simp [hd])]

theorem dropWhile_append_all (p : Char → Bool) (xs ys : List Char) (h : ∀ c ∈ xs, p c = true) :
    (xs ++ ys).dropWhile p = ys.dropWhile p := by
  induction xs with
  | nil => simp
  | cons c xs ih =>
    have hc := h c (by simp)
    simp [List.dropWhile_cons, hc, ih fun d hd => h d (by simp [hd])]

theorem dropWhile_of_takeWhile_nil (p : Char → Bool) (l : List Char)
    (h : l.takeWhile p = []) : l.dropWhile p = l := by
  have h2 := List.takeWhile_append_dropWhile p l
  rw [h] at h2
  simpa using h2

theorem sepSearch_sepFree (a : List Char) :
    ∀ g1 rest, (∀ c ∈ a, isSep c = false) →
      sepSearch g1 (a ++ rest) = sepSearch (g1 ++ a) rest := by
  induction a with
  | nil => intro g1 rest _; simp
  | cons c a ih =>
    intro g1 rest h
    have hc : isSep c = false := h c (by simp)
    simp only [List.cons_append, sepSearch, hc, Bool.false_eq_true, if_false, List.append_eq]
    rw [ih (g1 ++ [c]) rest fun d hd => h d (by simp [hd])]
    simp

theorem matchDialogueRe_sepFree (a : List Char) (ha : a ≠ [])
    (haf : ∀ c ∈ a, isSep c = false) : matchDialogueRe a = none := by
  match a, ha with
  | a0 :: a1, _ =>
    show sepSearch [a0] a1 = none
    have := sepSearch_sepFree a1 [a0] [] fun c hc => haf c (by simp [hc])
    simpa using this

theorem matchDialogueRe_eq (a sep b : List Char)
    (ha : a ≠ []) (haf : ∀ c ∈ a, isSep c = false)
    (hs : sep ≠ []) (hsf : ∀ c ∈ sep, isSep c = true)
    (hb : b ≠ []) (hbf : b.takeWhile isSep = []) :
    matchDialogueRe (a ++ (sep ++ b)) = some (a, sep, b) := by
  match a, ha with
  | a0 :: a1, _ =>
    show sepSearch [a0] (a1 ++ (sep ++ b)) = _
    rw [sepSearch_sepFree a1 [a0] (sep ++ b) fun c hc => haf c (by simp [hc])]
    match sep, hs with
    | s0 :: s1, _ =>
      have hs0 : isSep s0 = true := hsf s0 (by simp)
      have hrun : ((s0 :: s1) ++ b).takeWhile isSep = s0 :: s1 := by
        rw [takeWhile_append_all isSep (s0 :: s1) b hsf, hbf, List.append_nil]
      have hrest : ((s0 :: s1) ++ b).dropWhile isSep = b := by
        rw [dropWhile_append_all isSep (s0 :: s1) b hsf,
          dropWhile_of_takeWhile_nil isSep b hbf]
      show sepSearch ([a0] ++ a1) (s0 :: (s1 ++ b)) = _
      simp only [sepSearch, hs0, if_true]
      rw [show s0 :: (s1 ++ b) = (s0 :: s1) ++ b from rfl] at *
      simp only [hrun, hrest]
      have : b.isEmpty = false := by cases b with
        | nil => exact absurd rfl hb
        | cons x xs => rfl
      simp [this]

theorem classifyLine_match (a sep b : List Char)
    (ha : a ≠ []) (haf : ∀ c ∈ a, isSep c = false)
    (hs : sep ≠ []) (hsf : ∀ c ∈ sep, isSep c = true)
    (hb : b ≠ []) (hbf : b.takeWhile isSep = []) :
    classifyLine (a ++ (sep ++ b)) =
      (if sep = ['>'] then some ⟨Direction.left, String.mk a, String.mk b, Kind.normal⟩
       else if sep = ['<'] then some ⟨Direction.right, String.mk a, String.mk b, Kind.normal⟩
       else if sep = ['>', '>'] then some ⟨Direction.left, String.mk a, String.mk b, Kind.thought⟩
       else if sep = ['<', '<'] then some ⟨Direction.right, String.mk a, String.mk b, Kind.thought⟩
       else none) := by
  have h1 := matchDialogueRe_eq a sep b ha haf hs hsf hb hbf
  have hne : (a ++ (sep ++ b)).isEmpty = false := by
    cases a with
    | nil => exact absurd rfl ha
    | cons x xs => rfl
  simp only [classifyLine, hne, Bool.false_eq_true, if_false, h1]

theorem length_filterMap_lt {α β : Type} (f : α → Option β) (l : List α) (x : α)
    (hx : x ∈ l) (hfx : f x = none) : (l.filterMap f).length < l.length := by
  induction l with
  | nil => cases hx
  | cons y l ih =>
    rcases List.mem_cons.mp hx with rfl | hx2
    · rw [List.filterMap_cons, hfx]
      exact Nat.lt_succ_of_le (List.length_filterMap_le f l)
    · rw [List.filterMap_cons]
      cases hfy : f y with
      | none => exact Nat.lt_succ_of_lt (ih hx2)
      | some v => simpa using Nat.succ_lt_succ (ih hx2)

/-! ## Claim C1 -/

/-- C1, counterexample: the code classifies lines with the regex
`(.+?)([<>]+)(.+)`, not the spec's `(.+?)(\<+|\>+)(.+)`; on the line
`A<>B` the code's separator group captures the mixed run `<>` and the
line is silently dropped, while the spec's regex would capture `<` and
produce a right-directed normal turn with utterance `>B`. -/
theorem dialogue_regex_mixed_run_counterexample :
    classifyLine "A<>B".data = none ∧
    classifyLineSpec "A<>B".data =
      some ⟨Direction.right, "A", ">B", Kind.normal⟩ ∧
    classifyLine "A<>B".data ≠ classifyLineSpec "A<>B".data := by decide

/-- C1, amended: for every non-blank dialogue line, classification
matches it against `(.+?)([<>]+)(.+)`, whose separator group is a
greedy run of `<`/`>` characters of any length, possibly mixed; a
match with separator `>` yields direction=left, speaker=left group,
utterance=right group, kind=normal; `<` yields direction=right,
kind=normal; `>>` yields direction=left, kind=inner-thought; `<<`
yields direction=right, kind=inner-thought; any other separator run
(here `<>`) drops the line; a line with no match yields narration
(direction=center, empty speaker, kind=normal). -/
theorem dialogue_line_classification (a b : List Char)
    (ha : a ≠ []) (haf : ∀ c ∈ a, isSep c = false)
    (hb : b ≠ []) (hbf : b.takeWhile isSep = []) :
    classifyLine (a ++ '>' :: b) =
      some ⟨Direction.left, String.mk a, String.mk b, Kind.normal⟩ ∧
    classifyLine (a ++ '<' :: b) =
      some ⟨Direction.right, String.mk a, String.mk b, Kind.normal⟩ ∧
    classifyLine (a ++ '>' :: '>' :: b) =
      some ⟨Direction.left, String.mk a, String.mk b, Kind.thought⟩ ∧
    classifyLine (a ++ '<' :: '<' :: b) =
      some ⟨Direction.right, String.mk a, String.mk b, Kind.thought⟩ ∧
    classifyLine (a ++ '<' :: '>' :: b) = none ∧
    classifyLine a = some ⟨Direction.center, "", String.mk a, Kind.normal⟩ := by
  refine ⟨?_, ?_, ?_, ?_, ?_, ?_⟩
  · rw [show a ++ '>' :: b = a ++ (['>'] ++ b) from rfl,
      classifyLine_match a ['>'] b ha haf (by decide) (by decide) hb hbf]
    simp
  · rw [show a ++ '<' :: b = a ++ (['<'] ++ b) from rfl,
      classifyLine_match a ['<'] b ha haf (by decide) (by decide) hb hbf]
    simp
  · rw [show a ++ '>' :: '>' :: b = a ++ (['>', '>'] ++ b) from rfl,
      classifyLine_match a ['>', '>'] b ha haf (by decide) (by decide) hb hbf]
    simp
  · rw [show a ++ '<' :: '<' :: b = a ++ (['<', '<'] ++ b) from rfl,
      classifyLine_match a ['<', '<'] b ha haf (by decide) (by decide) hb hbf]
    simp
  · rw [show a ++ '<' :: '>' :: b = a ++ (['<', '>'] ++ b) from rfl,
      classifyLine_match a ['<', '>'] b ha haf (by decide) (by decide) hb hbf]
    simp
  · have hne : a.isEmpty = false := by
      cases a with
      | nil => exact absurd rfl ha
      | cons x xs => rfl
    simp only [classifyLine, hne, Bool.false_eq_true, if_false,
      matchDialogueRe_sepFree a ha haf]

/-- C1, witness at the line `A>B` (and its variants). -/
theorem dialogue_line_classification_witness :
    (['A'] ≠ ([] : List Char)) ∧ (∀ c ∈ ['A'], isSep c = false) ∧
    (['B'] ≠ ([] : List Char)) ∧ (['B'].takeWhile isSep = []) ∧
    (classifyLine (['A'] ++ '>' :: ['B']) =
        some ⟨Direction.left, "A", "B", Kind.normal⟩ ∧
     classifyLine (['A'] ++ '<' :: ['B']) =
        some ⟨Direction.right, "A", "B", Kind.normal⟩ ∧
     classifyLine (['A'] ++ '>' :: '>' :: ['B']) =
        some ⟨Direction.left, "A", "B", Kind.thought⟩ ∧
     classifyLine (['A'] ++ '<' :: '<' :: ['B']) =
        some ⟨Direction.right, "A", "B", Kind.thought⟩ ∧
     classifyLine (['A'] ++ '<' :: '>' :: ['B']) = none ∧
     classifyLine ['A'] = some ⟨Direction.center, "", "A", Kind.normal⟩) :=
  ⟨by decide, by decide, by decide, by decide,
   dialogue_line_classification ['A'] ['B'] (by decide) (by decide) (by decide) (by decide)⟩

/-! ## Claim C9 -/

/-- C9: dialogue block processing is total (`classifyLine` and
`parseDialogue` are total Lean functions, so no error path exists by
construction); the classified turns never outnumber the split lines; a
blank line present in the input makes the turn count strictly smaller
than the line count; and a non-blank line that produces no turn was
matched with a separator run other than the four recognised forms. -/
theorem dialogue_parser_total (s : String) (l : List Char) :
    (parseDialogue s).length ≤ (pySplit '\n' s.data).length ∧
    ([] ∈ pySplit '\n' s.data →
      (parseDialogue s).length < (pySplit '\n' s.data).length) ∧
    (l ≠ [] → classifyLine l = none →
      ∃ g1 sep g3, matchDialogueRe l = some (g1, sep, g3) ∧
        sep ≠ ['>'] ∧ sep ≠ ['<'] ∧ sep ≠ ['>', '>'] ∧ sep ≠ ['<', '<']) := by
  refine ⟨List.length_filterMap_le _ _,
    fun hmem => length_filterMap_lt _ _ [] hmem rfl,
    fun hl hnone => ?_⟩
  have hne : l.isEmpty = false := by
    cases l with
    | nil => exact absurd rfl hl
    | cons x xs => rfl
  rw [classifyLine, hne] at hnone
  simp only [Bool.false_eq_true, if_false] at hnone
  cases hm : matchDialogueRe l with
  | none => rw [hm] at hnone; simp at hnone
  | some g =>
    obtain ⟨g1, sep, g3⟩ := g
    rw [hm] at hnone
    refine ⟨g1, sep, g3, rfl, ?_, ?_, ?_, ?_⟩ <;>
      (intro heq; subst heq; simp at hnone)

/-- C9, witness: the body `A>B\n\nC` has a blank line and three split
lines but only two turns; the non-blank line `x<>y` is dropped with
separator `<>`. -/
theorem dialogue_parser_total_witness :
    ([] ∈ pySplit '\n' "A>B\n\nC".data) ∧
    (parseDialogue "A>B\n\nC").length < (pySplit '\n' "A>B\n\nC".data).length ∧
    ("x<>y".data ≠ []) ∧ (classifyLine "x<>y".data = none) ∧
    (∃ g1 sep g3, matchDialogueRe "x<>y".data = some (g1, sep, g3) ∧
      sep ≠ ['>'] ∧ sep ≠ ['<'] ∧ sep ≠ ['>', '>'] ∧ sep ≠ ['<', '<']) :=
  ⟨by decide,
   (dialogue_parser_total "A>B\n\nC" "x<>y".data).2.1 (by decide),
   by decide, by decide,
   (dialogue_parser_total "A>B\n\nC" "x<>y".data).2.2 (by decide) (by decide)⟩

/-! ## Claim C10 -/

/-- C10: after `DialogueBlock.on_end`, the block's own text is empty
and its children, in order, are the title element, the conversation
container with one `dialog-row` per turn (in order), and the trailing
`br`. -/
theorem dialogue_block_structure (body : String) :
    (dialogueOnEnd body).text = "" ∧
    (dialogueOnEnd body).children =
      [dialogueTitle, dialogueBox (parseDialogue body), brEl] ∧
    (dialogueBox (parseDialogue body)).children =
      (parseDialogue body).map dialogueRow ∧
    (dialogueBox (parseDialogue body)).children.length =
      (parseDialogue body).length := by
  refine ⟨rfl, rfl, rfl, ?_⟩
  simp [dialogueBox]

/-! ## Claim C5 -/

/-- C5, counterexample: the superfences fence tagged `dialogue` does
not convert its body lines into dialogue rows: on the body `A>B`,
which classifies as one turn, `dialogue_formatter` emits a
`canvas`/`script` wrapper that contains no `dialog-row` markup. -/
theorem dialogue_fence_canvas_counterexample :
    dialogue_formatter "A>B" "dialogue" "dialogue" =
      "<canvas></canvas><script>A>B</script>" ∧
    (parseDialogue "A>B").length = 1 ∧
    listContains "dialog-row".data
      (dialogue_formatter "A>B" "dialogue" "dialogue").data = false := by
  refine ⟨rfl, by decide, by decide⟩

/-- C5, amended: the superfences fence tagged `dialogue` wraps its raw
source in `<canvas></canvas><script>…</script>`; the structured
two-column chat markup is produced by the separate `/// dialogue`
blocks extension (`DialogueBlock`/`DialogueParser`), where each
recognised body line becomes one three-cell `dialog-row` in source
order. -/
theorem dialogue_rows_from_block_extension (body : String) :
    (∀ source language css_class : String,
      dialogue_formatter source language css_class =
        "<canvas></canvas><script>" ++ source ++ "</script>") ∧
    (dialogueBox (parseDialogue body)).children =
      (parseDialogue body).map dialogueRow ∧
    (∀ t ∈ parseDialogue body,
      (dialogueRow t).attrs = [("class", "dialog-row")] ∧
      (dialogueRow t).children.length = 3) := by
  exact ⟨fun _ _ _ => rfl, rfl, fun t _ => ⟨rfl, rfl⟩⟩

/-- C5, witness: the single turn of body `A>B` yields a three-cell
`dialog-row`. -/
theorem dialogue_rows_from_block_extension_witness :
    ((⟨Direction.left, "A", "B", Kind.normal⟩ : Turn) ∈ parseDialogue "A>B") ∧
    (dialogueRow ⟨Direction.left, "A", "B", Kind.normal⟩).attrs =
      [("class", "dialog-row")] ∧
    (dialogueRow ⟨Direction.left, "A", "B", Kind.normal⟩).children.length = 3 :=
  ⟨by decide,
   ((dialogue_rows_from_block_extension "A>B").2.2 _ (by decide)).1,
   ((dialogue_rows_from_block_extension "A>B").2.2 _ (by decide)).2⟩

/-! ## Syllabus lemmas -/

theorem pySplit_ne_nil (sep : Char) (l : List Char) : pySplit sep l ≠ [] := by
  cases l with
  | nil => simp [pySplit]
  | cons c rest =>
    by_cases hc : c = sep
    · simp [pySplit, hc]
    · simp only [pySplit, hc, if_false]
      cases pySplit sep rest with
      | nil => simp
      | cons s ss => simp

theorem pySplit_length (sep : Char) (l : List Char) :
    (pySplit sep l).length = l.count sep + 1 := by
  induction l with
  | nil => simp [pySplit]
  | cons c rest ih =>
    by_cases hc : c = sep
    · subst hc
      simp [pySplit, List.count_cons_self, ih]
    · simp only [pySplit, hc, if_false]
      cases hps : pySplit sep rest with
      | nil => exact absurd hps (pySplit_ne_nil sep rest)
      | cons s ss =>
        rw [hps] at ih
        simp only [List.length_cons] at ih ⊢
        rw [List.count_cons_of_ne (fun h => hc h.symm)]
        omega

theorem dottedTailF_cons_pos (fuel : Nat) (c : Char) (rest : List Char)
    (h : c = '.' ∧ rest.takeWhile Char.isDigit ≠ []) :
    dottedTailF (fuel + 1) (c :: rest) =
      ('.' :: (rest.takeWhile Char.isDigit ++
         (dottedTailF fuel (rest.dropWhile Char.isDigit)).1),
       (dottedTailF fuel (rest.dropWhile Char.isDigit)).2) := by
  show (if c = '.' ∧ rest.takeWhile Char.isDigit ≠ [] then _ else _) = _
  rw [if_pos h]

theorem dottedTailF_cons_neg (fuel : Nat) (c : Char) (rest : List Char)
    (h : ¬(c = '.' ∧ rest.takeWhile Char.isDigit ≠ [])) :
    dottedTailF (fuel + 1) (c :: rest) = ([], c :: rest) := by
  show (if c = '.' ∧ rest.takeWhile Char.isDigit ≠ [] then _ else _) = _
  rw [if_neg h]

theorem dottedTailF_split (fuel : Nat) :
    ∀ l : List Char, (dottedTailF fuel l).1 ++ (dottedTailF fuel l).2 = l := by
  induction fuel with
  | zero => intro l; rfl
  | succ fuel ih =>
    intro l
    cases l with
    | nil => rfl
    | cons c rest =>
      by_cases h : c = '.' ∧ rest.takeWhile Char.isDigit ≠ []
      · rw [dottedTailF_cons_pos fuel c rest h]
        obtain ⟨hc, _⟩ := h
        subst hc
        simp only [List.cons_append, List.append_assoc, List.cons.injEq, true_and]
        rw [ih (rest.dropWhile Char.isDigit), List.takeWhile_append_dropWhile]
      · rw [dottedTailF_cons_neg fuel c rest h]
        rfl

theorem dottedTailF_dotted (fuel : Nat) :
    ∀ (l ds : List Char), ds ≠ [] → (∀ c ∈ ds, Char.isDigit c = true) →
      Dotted (ds ++ (dottedTailF fuel l).1) := by
  induction fuel with
  | zero =>
    intro l ds h1 h2
    show Dotted (ds ++ [])
    simpa using Dotted.single ds h1 h2
  | succ fuel ih =>
    intro l ds h1 h2
    cases l with
    | nil =>
      show Dotted (ds ++ [])
      simpa using Dotted.single ds h1 h2
    | cons c rest =>
      by_cases h : c = '.' ∧ rest.takeWhile Char.isDigit ≠ []
      · rw [dottedTailF_cons_pos fuel c rest h]
        have := ih (rest.dropWhile Char.isDigit) (rest.takeWhile Char.isDigit) h.2
          (fun c hc => List.mem_takeWhile_imp hc)
        exact Dotted.cons ds h1 h2 _ this
      · rw [dottedTailF_cons_neg fuel c rest h]
        simpa using Dotted.single ds h1 h2

theorem pySpace_not_digit (c : Char) (h : isPySpace c = true) :
    Char.isDigit c = false ∧ c ≠ '.' := by
  simp only [isPySpace, Bool.or_eq_true, decide_eq_true_eq] at h
  rcases h with ⟨⟨⟨⟨h | h⟩ | h⟩ | h⟩ | h⟩ | h <;> subst h <;> exact ⟨rfl, by decide⟩

theorem dotGroups_takeWhile_digit_nil (tl suf : List Char) (h : DotGroups tl)
    (hsuf : ∀ c, suf.head? = some c → Char.isDigit c = false) :
    (tl ++ suf).takeWhile Char.isDigit = [] := by
  cases h with
  | nil =>
    cases suf with
    | nil => rfl
    | cons c cs => simp [List.takeWhile_cons, hsuf c rfl]
  | cons ds hne hd rest hg => simp [List.takeWhile_cons]

theorem dottedTailF_of_groups (tl suf : List Char) (h : DotGroups tl)
    (hsuf : ∀ c, suf.head? = some c → Char.isDigit c = false ∧ c ≠ '.') :
    ∀ fuel : Nat, tl.length ≤ fuel → dottedTailF fuel (tl ++ suf) = (tl, suf) := by
  induction h with
  | nil =>
    intro fuel _
    cases fuel with
    | zero => rfl
    | succ fuel =>
      cases suf with
      | nil => rfl
      | cons c cs =>
        have hc := (hsuf c rfl).2
        rw [List.nil_append, dottedTailF_cons_neg fuel c cs fun hcontra => hc hcontra.1]
  | cons ds hne hd rest hg ih =>
    intro fuel hfuel
    have hlen : ('.' :: ds ++ rest).length = ds.length + rest.length + 1 := by
      simp [List.length_append]
    cases fuel with
    | zero => omega
    | succ fuel =>
      have harr : ('.' :: ds ++ rest) ++ suf = '.' :: (ds ++ (rest ++ suf)) := by
        simp [List.append_assoc]
      rw [harr]
      have htk : (rest ++ suf).takeWhile Char.isDigit = [] :=
        dotGroups_takeWhile_digit_nil rest suf hg fun c hc => (hsuf c hc).1
      have htk2 : (ds ++ (rest ++ suf)).takeWhile Char.isDigit = ds := by
        rw [takeWhile_append_all Char.isDigit ds (rest ++ suf) hd, htk, List.append_nil]
      have hdr : (ds ++ (rest ++ suf)).dropWhile Char.isDigit = rest ++ suf := by
        rw [dropWhile_append_all Char.isDigit ds (rest ++ suf) hd,
          dropWhile_of_takeWhile_nil Char.isDigit (rest ++ suf) htk]
      rw [dottedTailF_cons_pos fuel '.' (ds ++ (rest ++ suf)) ⟨rfl, by rw [htk2]; exact hne⟩,
        htk2, hdr, ih fuel (by omega)]
      simp

theorem dotted_iff_groups (d : List Char) :
    Dotted d ↔ ∃ seg tl, d = seg ++ tl ∧ seg ≠ [] ∧
      (∀ c ∈ seg, Char.isDigit c = true) ∧ DotGroups tl := by
  constructor
  · intro h
    induction h with
    | single ds hne hd => exact ⟨ds, [], by simp, hne, hd, DotGroups.nil⟩
    | cons ds hne hd rest h ih =>
      obtain ⟨seg, tl, heq, hsegne, hsegd, hg⟩ := ih
      refine ⟨ds, '.' :: seg ++ tl, ?_, hne, hd, DotGroups.cons seg hsegne hsegd tl hg⟩
      rw [heq]
      simp
  · rintro ⟨seg, tl, heq, hsegne, hsegd, hg⟩
    subst heq
    induction hg generalizing seg with
    | nil => simpa using Dotted.single seg hsegne hsegd
    | cons ds hne hd rest h ih =>
      have := Dotted.cons seg hsegne hsegd (ds ++ rest) (ih ds hne hd)
      simpa [List.append_assoc] using this

theorem takeWhile_ne_nil_of_head (p : Char → Bool) (w r : List Char)
    (hw : w ≠ []) (hwf : ∀ c ∈ w, p c = true) :
    ((w ++ r).takeWhile p).isEmpty = false := by
  cases w with
  | nil => exact absurd rfl hw
  | cons c cs => simp [List.takeWhile_cons, hwf c (by simp)]

theorem syllabusMatch_some (block : String) (h : syllabusTest block = true) :
    ∃ d w r, Dotted d ∧ w ≠ [] ∧ (∀ c ∈ w, isPySpace c = true) ∧
      block.data = d ++ w ++ r := by
  simp only [syllabusTest, syllabusMatch] at h
  by_cases h1 : (block.data.takeWhile Char.isDigit).isEmpty = true
  · rw [if_pos h1] at h
    simp at h
  · rw [if_neg h1] at h
    by_cases h2 :
        ((dottedTail (block.data.dropWhile Char.isDigit)).2.takeWhile isPySpace).isEmpty = true
    · rw [if_pos h2] at h
      simp at h
    · refine ⟨block.data.takeWhile Char.isDigit ++
          (dottedTail (block.data.dropWhile Char.isDigit)).1,
        (dottedTail (block.data.dropWhile Char.isDigit)).2.takeWhile isPySpace,
        (dottedTail (block.data.dropWhile Char.isDigit)).2.dropWhile isPySpace,
        ?_, ?_, ?_, ?_⟩
      · exact dottedTailF_dotted (block.data.dropWhile Char.isDigit).length
          (block.data.dropWhile Char.isDigit) _
          (by simpa using h1) (fun c hc => List.mem_takeWhile_imp hc)
      · simpa using h2
      · exact fun c hc => List.mem_takeWhile_imp hc
      · have e1 : (dottedTail (block.data.dropWhile Char.isDigit)).1 ++
            (dottedTail (block.data.dropWhile Char.isDigit)).2 =
            block.data.dropWhile Char.isDigit :=
          dottedTailF_split _ _
        have e2 := List.takeWhile_append_dropWhile isPySpace
          (dottedTail (block.data.dropWhile Char.isDigit)).2
        have e3 := List.takeWhile_append_dropWhile Char.isDigit block.data
        rw [List.append_assoc, List.append_assoc, e2, e1, e3]

theorem syllabusTest_of_decomp (block : String) (d w r : List Char)
    (hd : Dotted d) (hw : w ≠ []) (hwf : ∀ c ∈ w, isPySpace c = true)
    (hb : block.data = d ++ w ++ r) : syllabusTest block = true := by
  obtain ⟨seg, tl, heq, hsegne, hsegd, hg⟩ := (dotted_iff_groups d).mp hd
  subst heq
  have hsuf : ∀ c, (w ++ r).head? = some c → Char.isDigit c = false ∧ c ≠ '.' := by
    cases w with
    | nil => exact absurd rfl hw
    | cons x xs =>
      intro c hc
      rw [List.cons_append, List.head?_cons, Option.some.injEq] at hc
      exact hc ▸ pySpace_not_digit x (hwf x (by simp))
  have harr : block.data = seg ++ (tl ++ (w ++ r)) := by
    rw [hb]
    simp [List.append_assoc]
  have htkw : (tl ++ (w ++ r)).takeWhile Char.isDigit = [] :=
    dotGroups_takeWhile_digit_nil tl (w ++ r) hg fun c hc => (hsuf c hc).1
  have htks : block.data.takeWhile Char.isDigit = seg := by
    rw [harr, takeWhile_append_all Char.isDigit seg _ hsegd, htkw, List.append_nil]
  have hdrs : block.data.dropWhile Char.isDigit = tl ++ (w ++ r) := by
    rw [harr, dropWhile_append_all Char.isDigit seg _ hsegd,
      dropWhile_of_takeWhile_nil Char.isDigit _ htkw]
  have hdt : dottedTail (tl ++ (w ++ r)) = (tl, w ++ r) :=
    dottedTailF_of_groups tl (w ++ r) hg hsuf (tl ++ (w ++ r)).length
      (by simp [List.length_append])
  have hseg : seg.isEmpty = false := by
    cases seg with
    | nil => exact absurd rfl hsegne
    | cons x xs => rfl
  have hsp := takeWhile_ne_nil_of_head isPySpace w r hw hwf
  simp only [syllabusTest, syllabusMatch, htks, hdrs, hdt, hseg, hsp,
    Bool.false_eq_true, if_false]
  rfl

/-! ## Claim C6 -/

/-- C6, counterexample: `Syllabus.test` matches the *whole block* with
`(\d+(\.\d+)*)\s+(.*)` (empty title allowed, whitespace spanning
newlines), not the spec's first-line regex `^(\d+(\.\d+)*)\s+(.+)`:
the blocks `"1 "` (trailing space, no title) and `"1\nIntro"` (first
line `1` alone) are accepted by the code but do not satisfy the spec's
stated first-line contract. -/
theorem syllabus_test_first_line_counterexample :
    syllabusTest "1 " = true ∧ specFirstLineTest "1 " = false ∧
    syllabusTest "1\nIntro" = true ∧ specFirstLineTest "1\nIntro" = false := by
  exact ⟨by decide, by decide, by decide, by decide⟩

/-- C6, amended: `Syllabus.test` is true iff the block starts with a
dotted numeral (`\d+(\.\d+)*`) immediately followed by at least one
whitespace character (the rest of the block, title included, is
unconstrained and may be empty); and a block failing the test is left
unmodified by the processor, which is not even run. -/
theorem syllabus_test_characterization (block : String) (parent : Element) :
    (syllabusTest block = true ↔
      ∃ d w r, Dotted d ∧ w ≠ [] ∧ (∀ c ∈ w, isPySpace c = true) ∧
        block.data = d ++ w ++ r) ∧
    (syllabusTest block = false →
      dispatchBlock [syllabusProc] parent [block] [] =
        (parent, [block], [("syllabus", block)])) := by
  refine ⟨⟨syllabusMatch_some block, ?_⟩, ?_⟩
  · rintro ⟨d, w, r, h1, h2, h3, h4⟩
    exact syllabusTest_of_decomp block d w r h1 h2 h3 h4
  · intro hf
    simp [dispatchBlock, syllabusProc, hf]

/-- C6, witness: `"1 x"` passes the test via the decomposition
`['1'] ++ [' '] ++ ['x']`; the non-matching block `"abc"` flows
through the dispatcher untouched. -/
theorem syllabus_test_characterization_witness :
    syllabusTest "1 x" = true ∧
    dispatchBlock [syllabusProc] ⟨"div", [], "", []⟩ ["abc"] [] =
      (⟨"div", [], "", []⟩, ["abc"], [("syllabus", "abc")]) :=
  ⟨(syllabus_test_characterization "1 x" ⟨"div", [], "", []⟩).1.mpr
     ⟨['1'], [' '], ['x'], Dotted.single ['1'] (by decide) (by decide),
      by decide, by decide, by decide⟩,
   (syllabus_test_characterization "abc" ⟨"div", [], "", []⟩).2 (by decide)⟩

/-! ## Claim C2 -/

/-- C2: on every block accepted by `Syllabus`, `run` appends a heading
whose level is the number of dot-separated segments of the id (one
more than the number of dots), whose `id` attribute is the dotted id
exactly, and whose text is the id, a single space, and the title. -/
theorem syllabus_run_heading_level (parent : Element) (blocks : List String)
    (id title : String) (h : syllabusMatch (blocks.headD "") = some (id, title)) :
    syllabusRun parent blocks =
      ({ parent with children := parent.children ++
          [{ tag := "h" ++ toString (id.data.count '.' + 1),
             attrs := [("id", id)], text := id ++ " " ++ title,
             children := [] }] },
       blocks.set 0 "", false) := by
  unfold syllabusRun
  rw [h]
  simp only [syllabusHeader, pySplit_length]

/-- C2, witness: the spec's Example 1, block `1.2 Intro`, produces
`<h2 id="1.2">1.2 Intro</h2>` and nothing else. -/
theorem syllabus_run_heading_level_witness :
    syllabusMatch "1.2 Intro" = some ("1.2", "Intro") ∧
    syllabusRun ⟨"div", [], "", []⟩ ["1.2 Intro"] =
      (⟨"div", [], "", [⟨"h2", [("id", "1.2")], "1.2 Intro", []⟩]⟩, [""], false) :=
  ⟨by decide,
   syllabus_run_heading_level ⟨"div", [], "", []⟩ ["1.2 Intro"] "1.2" "Intro" (by decide)⟩

/-! ## Claim C7 -/

/-- C7, counterexample: `Syllabus.run` returns `False`, which under
the host's dispatch contract (`run(...) is not False` breaks the
processor loop) means the block was *not* flagged as consumed: on the
block `1 Intro\nrest` the emptied block is re-tested by the next
default processor — the `empty` block processor at priority 100, whose
test accepts the empty block — as the dispatch trace records. -/
theorem syllabus_run_retest_counterexample :
    (syllabusRun ⟨"div", [], "", []⟩ ["1 Intro\nrest"]).2.2 = false ∧
    dispatchBlock [syllabusProc, emptyBlockProc] ⟨"div", [], "", []⟩
        ["1 Intro\nrest"] [] =
      (⟨"div", [], "", [⟨"h1", [("id", "1")], "1 Intro", []⟩]⟩, [],
       [("syllabus", "1 Intro\nrest"), ("empty", "")]) ∧
    ("empty", "") ∈ (dispatchBlock [syllabusProc, emptyBlockProc]
        ⟨"div", [], "", []⟩ ["1 Intro\nrest"] []).2.2 := by
  exact ⟨rfl, rfl, by decide⟩

/-- C7, amended: on a matching block, `run` replaces the entire block
content (any remainder beyond the matched part included) with the
heading and empties `blocks[0]`; but its return value `False` tells
the host the block was *not* consumed, so the emptied block is offered
to and re-tested by the remaining lower-priority processors — the
host's default `empty` block processor (priority 100, the first
default tried) then swallows the empty block, leaving the tree
untouched (the heading is not a `pre`/`code` pair), which is why the
net output is the heading alone. -/
theorem syllabus_run_block_consumed (parent : Element) (block id title : String)
    (h : syllabusMatch block = some (id, title)) :
    (syllabusRun parent [block]).2.2 = false ∧
    dispatchBlock [syllabusProc, emptyBlockProc] parent [block] [] =
      ({ parent with children := parent.children ++ [syllabusHeader id title] }, [],
       [("syllabus", block), ("empty", "")]) ∧
    ("empty", "") ∈ (dispatchBlock [syllabusProc, emptyBlockProc]
        parent [block] []).2.2 := by
  have hrun : syllabusRun parent [block] =
      ({ parent with children := parent.children ++ [syllabusHeader id title] },
       [""], false) := by
    unfold syllabusRun
    rw [show ([block].headD "") = block from rfl, h]
    rfl
  have htest : syllabusTest block = true := by
    rw [syllabusTest, h]
    rfl
  have hempty : emptyRunTree
      ({ parent with children := parent.children ++ [syllabusHeader id title] })
      "\n\n" =
      { parent with children := parent.children ++ [syllabusHeader id title] } := by
    unfold emptyRunTree
    rw [show ({ parent with children := parent.children ++ [syllabusHeader id title] }
        : Element).children = parent.children ++ [syllabusHeader id title] from rfl]
    rw [List.getLast?_concat]
    have hnc : ¬((syllabusHeader id title).tag = "pre" ∧
        (syllabusHeader id title).children.isEmpty = false ∧
        ((syllabusHeader id title).children.headD ⟨"", [], "", []⟩).tag = "code") :=
      fun hcond => absurd hcond.2.1 (by simp [syllabusHeader])
    exact if_neg hnc
  have hdisp : dispatchBlock [syllabusProc, emptyBlockProc] parent [block] [] =
      ({ parent with children := parent.children ++ [syllabusHeader id title] }, [],
       [("syllabus", block), ("empty", "")]) := by
    simp only [dispatchBlock]
    rw [show syllabusProc.test block = syllabusTest block from rfl, htest]
    simp only [if_true]
    rw [show syllabusProc.run parent [block] = syllabusRun parent [block] from rfl, hrun]
    simp only [dispatchBlock, Bool.false_eq_true, if_false]
    rw [show emptyBlockProc.test "" = true from rfl]
    simp only [if_true]
    rw [show emptyBlockProc.run
        ({ parent with children := parent.children ++ [syllabusHeader id title] }) [""] =
        (emptyRunTree
          ({ parent with children := parent.children ++ [syllabusHeader id title] })
          "\n\n", [], true) from rfl]
    rw [hempty]
    simp [syllabusProc, emptyBlockProc]
  refine ⟨by rw [hrun], hdisp, ?_⟩
  rw [hdisp]
  simp

/-- C7, witness at the block `2.3 Setup`. -/
theorem syllabus_run_block_consumed_witness :
    syllabusMatch "2.3 Setup" = some ("2.3", "Setup") ∧
    dispatchBlock [syllabusProc, emptyBlockProc] ⟨"div", [], "", []⟩ ["2.3 Setup"] [] =
      (⟨"div", [], "", [syllabusHeader "2.3" "Setup"]⟩, [],
       [("syllabus", "2.3 Setup"), ("empty", "")]) :=
  ⟨by decide,
   (syllabus_run_block_consumed ⟨"div", [], "", []⟩ "2.3 Setup" "2.3" "Setup"
     (by decide)).2.1⟩

/-! ## Claim C3 -/

/-- C3 (code bug): `ID.handleMatch` sets the element's single
attribute to `m.group(2) if self.value is None else self.value`; when
`value` is configured as an integer the integer itself is stored, not
the designated capture group promised by the rule's own docstring
("设置为整数时则为指定的匹配组") and the spec: with value 3 and captured
groups `["a", "b", "c"]` the attribute holds the raw integer 3 rather
than group 3's text `"c"`, while the unset and string cases do behave
as claimed. -/
theorem id_value_integer_not_group :
    ID_handleMatch ⟨"span", "title", some (Sum.inr 3)⟩ ["a", "b", "c"] =
      ⟨"span", "a", "title", Sum.inr 3⟩ ∧
    (ID_handleMatch ⟨"span", "title", some (Sum.inr 3)⟩ ["a", "b", "c"]).attrValue ≠
      Sum.inl "c" ∧
    ID_handleMatch ⟨"span", "title", none⟩ ["a", "b", "c"] =
      ⟨"span", "a", "title", Sum.inl "b"⟩ ∧
    ID_handleMatch ⟨"span", "title", some (Sum.inl "fixed")⟩ ["a", "b", "c"] =
      ⟨"span", "a", "title", Sum.inl "fixed"⟩ := by
  exact ⟨rfl, by decide, rfl, rfl⟩

/-! ## Claim C8 -/

/-- C8: with an empty language tag, a leading `#` sigil renders a
self-referencing span whose visible text and `id` attribute both equal
the remainder, and a leading `-` sigil renders an anchor whose href is
`#` plus the remainder and whose visible text is the remainder. -/
theorem inline_code_sigils (varMap : String → Option String) (cssClass : String)
    (r : List Char) (h : ∀ c ∈ r, c ≠ '\n') :
    InlineCode_call varMap (String.mk ('#' :: r)) "" cssClass =
      InlineResult.html
        ("<span id=\"" ++ String.mk r ++ "\">" ++ String.mk r ++ "</span>") ∧
    InlineCode_call varMap (String.mk ('-' :: r)) "" cssClass =
      InlineResult.html
        ("<a href=#" ++ String.mk r ++ ">" ++ String.mk r ++ "</a>") := by
  have htk : r.takeWhile (fun d => d ≠ '\n') = r :=
    List.takeWhile_eq_self_iff.mpr fun a ha => by simpa using h a ha
  have hsplit1 : inlineCodeSplit ('#' :: r) = (some '#', r) := by
    simp only [inlineCodeSplit, htk]
    rw [if_pos (by decide)]
  have hsplit2 : inlineCodeSplit ('-' :: r) = (some '-', r) := by
    simp only [inlineCodeSplit, htk]
    rw [if_pos (by decide)]
  constructor
  · simp [InlineCode_call, hsplit1, h]
  · simp [InlineCode_call, hsplit2, h]

/-- C8, witness: Example 3 of the spec, `` `#sec1` `` →
`<span id="sec1">sec1</span>`, plus the link sigil on the same name. -/
theorem inline_code_sigils_witness :
    (∀ c ∈ "sec1".data, c ≠ '\n') ∧
    InlineCode_call (fun _ => none) "#sec1" "" "block" =
      InlineResult.html "<span id=\"sec1\">sec1</span>" ∧
    InlineCode_call (fun _ => none) "-sec1" "" "block" =
      InlineResult.html "<a href=#sec1>sec1</a>" :=
  ⟨by decide,
   (inline_code_sigils (fun _ => none) "block" "sec1".data (by decide)).1,
   (inline_code_sigils (fun _ => none) "block" "sec1".data (by decide)).2⟩

/-! ## Claim C4 -/

/-- C4: with an empty language tag and no leading sigil, the inline
code resolver renders a code element whose text is the mapping's value
when the remainder is a key of the variable mapping, and the remainder
verbatim otherwise — a no-op passthrough; the resolver is a total
function, so no error path exists. -/
theorem inline_code_variable_lookup (varMap : String → Option String)
    (cssClass : String) (v : List Char)
    (h1 : ∀ c ∈ v, c ≠ '\n')
    (h2 : ∀ c, v.head? = some c → c ≠ '#' ∧ c ≠ '-') :
    (∀ x, varMap (String.mk v) = some x →
      InlineCode_call varMap (String.mk v) "" cssClass =
        InlineResult.html ("<code id=\"block\">" ++ x ++ "</code>")) ∧
    (varMap (String.mk v) = none →
      InlineCode_call varMap (String.mk v) "" cssClass =
        InlineResult.html ("<code id=\"block\">" ++ String.mk v ++ "</code>")) := by
  have hsplit : inlineCodeSplit v = (none, v) := by
    cases v with
    | nil => rfl
    | cons c cs =>
      have hc := h2 c rfl
      have htk : (c :: cs).takeWhile (fun d => d ≠ '\n') = c :: cs :=
        List.takeWhile_eq_self_iff.mpr fun a ha => by simpa using h1 a ha
      simp only [inlineCodeSplit]
      rw [if_neg (by simp [hc.1, hc.2])]
      rw [show (c :: cs).takeWhile (fun d => d ≠ '\n') = c :: cs from htk]
  constructor
  · intro x hx
    simp [InlineCode_call, hsplit, hx]
  · intro hx
    simp [InlineCode_call, hsplit, hx]

/-- C4, witness: Example 4 of the spec, `` `greeting` `` with the
mapping `{greeting: "你好"}` and with the empty mapping. -/
theorem inline_code_variable_lookup_witness :
    ((fun k => if k = "greeting" then some "你好" else none) "greeting" =
      some "你好") ∧
    InlineCode_call (fun k => if k = "greeting" then some "你好" else none)
      "greeting" "" "block" =
      InlineResult.html "<code id=\"block\">你好</code>" ∧
    InlineCode_call (fun _ => none) "greeting" "" "block" =
      InlineResult.html "<code id=\"block\">greeting</code>" :=
  ⟨by decide,
   (inline_code_variable_lookup (fun k => if k = "greeting" then some "你好" else none)
      "block" "greeting".data (by decide) (by decide)).1 "你好" (by decide),
   (inline_code_variable_lookup (fun _ => none)
      "block" "greeting".data (by decide) (by decide)).2 rfl⟩

end CrossDown
